import Mathlib

/-!
Font size plugin (`src/index.js`).

A shallow embedding of the plugin's three listeners (the `change` listener of the
size field, the `click` listener of each preset entry, the `showDropdown`
listener) and of the `changeFontSize` command, together with the two JavaScript
built-ins the listeners rely on: `parseInt(_, 10)` and the number-to-string
conversion performed by the template literal in the command body.

JavaScript numbers are IEEE-754 doubles.  Every number that reaches the plugin is
either `NaN`, an infinity, or an integer-valued double, so a number is modelled by
its sign and its exact integer magnitude; rounding to the nearest double is done in
exact natural-number arithmetic.
-/

namespace FontSizePlugin

set_option exponentiation.threshold 2000

/-! ## JavaScript numbers -/

/-- The JavaScript numbers that can occur in the plugin: `NaN`, the two infinities,
and the integer-valued doubles in sign/magnitude form (`int true 0` is `-0`). -/
inductive JSNumber where
  | nan : JSNumber
  | inf (neg : Bool) : JSNumber
  | int (neg : Bool) (mag : Nat) : JSNumber
deriving DecidableEq

/-- Position of the highest set bit of `n` (`0` for `n < 2`), by repeated halving;
`fuel` bounds the number of halvings. -/
def log2Fuel : Nat → Nat → Nat
  | 0, _ => 0
  | fuel + 1, n => if n < 2 then 0 else log2Fuel fuel (n / 2) + 1

/-- Position of the highest set bit of `n`. -/
def log2 (n : Nat) : Nat :=
  log2Fuel n n

/-- The integer nearest to `m` among those a double can hold (53 significant bits,
ties to the even significand).  The result may be `2 ^ 1024` or more, which stands
for an overflow. -/
def roundNearestEven (m : Nat) : Nat :=
  if m < 2 ^ 53 then m
  else
    let e := log2 m - 52
    let q := m / 2 ^ e
    let r := m % 2 ^ e
    let half := 2 ^ (e - 1)
    let q' := if half < r ∨ (r = half ∧ q % 2 = 1) then q + 1 else q
    q' * 2 ^ e

/-- The Number value of the signed integer `±m` (`m ≠ 0`): rounded to the nearest
double, infinite on overflow. -/
def toNumber (neg : Bool) (m : Nat) : JSNumber :=
  let v := roundNearestEven m
  if v < 2 ^ 1024 then .int neg v else .inf neg

/-- The built-in `isNaN` on a number. -/
def isNaN : JSNumber → Bool
  | .nan => true
  | _ => false

/-- The comparison `x <= 0` on a number (`NaN <= 0` is false, `-0 <= 0` is true). -/
def leZero : JSNumber → Bool
  | .nan => false
  | .inf neg => neg
  | .int neg mag => neg || mag == 0

/-! ## `parseInt(string, 10)` -/

/-- The code points `parseInt` skips at the start of its input: the ECMAScript
`WhiteSpace` and `LineTerminator` code points. -/
def isStrWhiteSpaceChar (c : Char) : Bool :=
  let n := c.toNat
  n == 0x09 || n == 0x0A || n == 0x0B || n == 0x0C || n == 0x0D || n == 0x20 ||
  n == 0xA0 || n == 0x1680 || (0x2000 ≤ n && n ≤ 0x200A) || n == 0x2028 ||
  n == 0x2029 || n == 0x202F || n == 0x205F || n == 0x3000 || n == 0xFEFF

/-- The radix-10 digits `0` to `9`. -/
def isDecimalDigit (c : Char) : Bool :=
  decide (48 ≤ c.toNat) && decide (c.toNat ≤ 57)

/-- The integer denoted by a run of decimal digits, most significant first. -/
def digitsValue (ds : List Char) : Nat :=
  ds.foldl (fun acc c => 10 * acc + (c.toNat - 48)) 0

/-- The built-in `parseInt(string, 10)` on a list of characters: skip leading white
space, read an optional sign, take the longest run of decimal digits; no digit
gives `NaN`, otherwise the signed value of the run as a Number. -/
def parseIntChars (input : List Char) : JSNumber :=
  let s := input.dropWhile isStrWhiteSpaceChar
  let neg := match s with
    | '-' :: _ => true
    | _ => false
  let s := match s with
    | '+' :: t => t
    | '-' :: t => t
    | _ => s
  let z := s.takeWhile isDecimalDigit
  if z.isEmpty then .nan
  else
    let mathInt := digitsValue z
    if mathInt = 0 then .int neg 0 else toNumber neg mathInt

/-- The built-in `parseInt(string, 10)`. -/
def parseInt (string : String) : JSNumber :=
  parseIntChars string.data

/-! ## Number to string (template literal) -/

/-- Search for the decimal with the fewest significant digits that still rounds to
the double `x`: for the scale `10 ^ j`, largest scale first, the two multiples of
the scale around `x` are tried; when both round to `x` the closer one is taken
(the even digit string on a tie).  Scale `1` always succeeds with `x` itself. -/
def shortestFrom (x : Nat) : Nat → Nat
  | 0 => x
  | j + 1 =>
    let p := 10 ^ (j + 1)
    let lo := x / p * p
    let hi := lo + p
    let okLo := decide (lo ≠ 0) && decide (roundNearestEven lo = x)
    let okHi := decide (roundNearestEven hi = x)
    if okLo && okHi then
      if x - lo < hi - x then lo
      else if hi - x < x - lo then hi
      else if (x / p) % 2 = 0 then lo else hi
    else if okLo then lo
    else if okHi then hi
    else shortestFrom x j

/-- The shortest decimal that rounds to the positive integer-valued double `x`. -/
def shortestDecimal (x : Nat) : Nat :=
  shortestFrom x (Nat.repr x).length

/-- Drop the trailing zeros of a digit string. -/
def stripTrailingZeros (ds : List Char) : List Char :=
  (ds.reverse.dropWhile (fun c => c == '0')).reverse

/-- The string of a positive integer-valued double: its shortest decimal printed in
full when it has at most 21 digits, in exponent form otherwise. -/
def positiveToString (x : Nat) : String :=
  let v := shortestDecimal x
  if v < 10 ^ 21 then Nat.repr v
  else
    let n := (Nat.repr v).length
    let exponent := "e+" ++ Nat.repr (n - 1)
    match stripTrailingZeros (Nat.repr v).data with
    | [] => exponent
    | [d] => String.mk [d] ++ exponent
    | d :: ds => String.mk (d :: '.' :: ds) ++ exponent

/-- The string a template literal produces for a number (`Number::toString`,
radix 10). -/
def numberToString : JSNumber → String
  | .nan => "NaN"
  | .inf false => "Infinity"
  | .inf true => "-Infinity"
  | .int _ 0 => "0"
  | .int false (m + 1) => positiveToString (m + 1)
  | .int true (m + 1) => "-" ++ positiveToString (m + 1)

/-! ## The plugin -/

/-- What the plugin can observe and change: the text shown in the size field, whether
the preset popup is shown, whether the editor is in WYSIWYG mode (the command is
registered for that mode only), and the calls made so far to `editor.exec` and to
the underlying editor's `setFontSize`. -/
structure World where
  inputValue : String
  popupVisible : Bool
  wysiwygMode : Bool
  execCalls : List (String × JSNumber)
  setFontSizeCalls : List String
deriving DecidableEq

/-- The preset sizes rendered by `initDropdown`. -/
def fontSizeValues : List Nat := [12, 14, 16, 18, 20, 24]

/-- The body of the `changeFontSize` command: `sq.setFontSize(fontSize + "px")` with
the number converted as a template literal does. -/
def changeFontSize (fontSize : JSNumber) (w : World) : World :=
  { w with setFontSizeCalls := w.setFontSizeCalls ++ [numberToString fontSize ++ "px"] }

/-- The host's `editor.exec(name, arg)`: the call is recorded and, in WYSIWYG mode,
dispatched to the command registered under that name by `fontSizePlugin`. -/
def exec (name : String) (arg : JSNumber) (w : World) : World :=
  let w := { w with execCalls := w.execCalls ++ [(name, arg)] }
  if w.wysiwygMode && name == "changeFontSize" then changeFontSize arg w else w

/-- The `change` listener of the size field, run on the field's current text. -/
def fontSizeInputChange (w : World) : World :=
  let fontSize := parseInt w.inputValue
  if isNaN fontSize || leZero fontSize then w
  else exec "changeFontSize" fontSize w

/-- A user edit: the field shows the typed text, then its `change` listener runs on
it.  The text is any string; what a browser lets through a number field is not
modelled. -/
def onUserEdit (rawText : String) (w : World) : World :=
  fontSizeInputChange { w with inputValue := rawText }

/-- The `click` listener of the preset entry whose `value` is `fontSize`: the entry
was given the number as its `value`, and the listener reads it back as a number. -/
def onPresetClicked (fontSize : Nat) (w : World) : World :=
  exec "changeFontSize" (.int false fontSize) w

/-- The `showDropdown` listener: `popup.show()`. -/
def onShowRequested (w : World) : World :=
  { w with popupVisible := true }

/-- The state right after `fontSizePlugin(editor)`: the field shows "12", the popup
has been created and not shown, nothing has been executed. -/
def fontSizePlugin (wysiwygMode : Bool) : World :=
  { inputValue := "12", popupVisible := false, wysiwygMode := wysiwygMode,
    execCalls := [], setFontSizeCalls := [] }

/-- The events the plugin listens to. -/
inductive Event where
  | change (rawText : String) : Event
  | presetClick (i : Fin 6) : Event
  | showDropdown : Event

/-- Run the listener of one event. -/
def step (w : World) : Event → World
  | .change rawText => onUserEdit rawText w
  | .presetClick i => onPresetClicked (fontSizeValues.getD i.val 0) w
  | .showDropdown => onShowRequested w

/-- Run the listeners of a sequence of events, in order. -/
def run (w : World) (events : List Event) : World :=
  events.foldl step w

/-- The comparison `x < bound` of a number with a positive integer constant (false
for `NaN`, true for every negative number and for both zeros). -/
def ltBound (x : JSNumber) (bound : Nat) : Bool :=
  match x with
  | .nan => false
  | .inf neg => neg
  | .int neg mag => neg || decide (mag < bound)

/-- An argument of `setFontSize` of the intended form: the decimal numeral of a
positive integer followed by "px". -/
def IsPixelSize (a : String) : Prop :=
  ∃ n : Nat, 0 < n ∧ a = toString n ++ "px"

/-! ## Rounding to a double -/

theorem log2Fuel_spec (fuel : Nat) : ∀ n : Nat, n ≤ fuel → 1 ≤ n →
    2 ^ log2Fuel fuel n ≤ n ∧ n < 2 ^ (log2Fuel fuel n + 1) := by
  induction fuel with
  | zero => intro n h0 h1; omega
  | succ fuel ih =>
    intro n hle hpos
    unfold log2Fuel
    by_cases h2 : n < 2
    · have hn : n = 1 := by omega
      subst hn
      simp
    · rw [if_neg h2]
      have hhalf := ih (n / 2) (by omega) (by omega)
      obtain ⟨hlo, hhi⟩ := hhalf
      constructor
      · rw [pow_succ]; omega
      · rw [pow_succ]; omega

theorem log2_spec (n : Nat) (h : 1 ≤ n) : 2 ^ log2 n ≤ n ∧ n < 2 ^ (log2 n + 1) :=
  log2Fuel_spec n n (Nat.le_refl n) h

theorem roundNearestEven_small (m : Nat) (h : m < 2 ^ 53) : roundNearestEven m = m := by
  unfold roundNearestEven
  rw [if_pos h]

theorem roundNearestEven_large (m : Nat) (h : 2 ^ 53 ≤ m) : 2 ^ 53 ≤ roundNearestEven m := by
  unfold roundNearestEven
  rw [if_neg (by omega)]
  obtain ⟨hlo, hhi⟩ := log2_spec m (by omega)
  have hL : 53 ≤ log2 m := by
    by_contra hc
    have h1 : log2 m + 1 ≤ 53 := by omega
    have h2 : 2 ^ (log2 m + 1) ≤ 2 ^ 53 := Nat.pow_le_pow_right (by norm_num) h1
    omega
  have hsplit : 2 ^ log2 m = 2 ^ 52 * 2 ^ (log2 m - 52) := by
    rw [← pow_add]; congr 1; omega
  have hq : 2 ^ 52 ≤ m / 2 ^ (log2 m - 52) := by
    rw [Nat.le_div_iff_mul_le (by positivity)]
    omega
  have hpow : 2 ^ 53 ≤ 2 ^ log2 m := Nat.pow_le_pow_right (by norm_num) hL
  have hmono : 2 ^ 52 * 2 ^ (log2 m - 52) ≤
      (if 2 ^ (log2 m - 52 - 1) < m % 2 ^ (log2 m - 52) ∨
          (m % 2 ^ (log2 m - 52) = 2 ^ (log2 m - 52 - 1) ∧ m / 2 ^ (log2 m - 52) % 2 = 1)
        then m / 2 ^ (log2 m - 52) + 1 else m / 2 ^ (log2 m - 52)) * 2 ^ (log2 m - 52) := by
    apply Nat.mul_le_mul_right
    split <;> omega
  simp only
  omega

/-- Rounding never goes below the value with its low bits cleared. -/
theorem roundNearestEven_floor (m : Nat) (h : 2 ^ 53 ≤ m) :
    m / 2 ^ (log2 m - 52) * 2 ^ (log2 m - 52) ≤ roundNearestEven m := by
  unfold roundNearestEven
  rw [if_neg (by omega)]
  simp only
  apply Nat.mul_le_mul_right
  split <;> omega

/-- A value of `10 ^ 21` or more rounds to a double of `10 ^ 21` or more. -/
theorem roundNearestEven_ge_1e21 (y : Nat) (h : 10 ^ 21 ≤ y) : 10 ^ 21 ≤ roundNearestEven y := by
  have h53 : 2 ^ 53 ≤ y := le_trans (by norm_num) h
  have hfloor := roundNearestEven_floor y h53
  obtain ⟨hlo, hhi⟩ := log2_spec y (by omega)
  have hL : 69 ≤ log2 y := by
    by_contra hc
    have h1 : log2 y + 1 ≤ 69 := by omega
    have h2 : 2 ^ (log2 y + 1) ≤ 2 ^ 69 := Nat.pow_le_pow_right (by norm_num) h1
    have h3 : (2 : Nat) ^ 69 < 10 ^ 21 := by norm_num
    omega
  by_cases h70 : 70 ≤ log2 y
  · have hsplit : 2 ^ log2 y = 2 ^ 52 * 2 ^ (log2 y - 52) := by
      rw [← pow_add]; congr 1; omega
    have hq : 2 ^ 52 ≤ y / 2 ^ (log2 y - 52) := by
      rw [Nat.le_div_iff_mul_le (by positivity)]
      omega
    have hmul : 2 ^ 52 * 2 ^ (log2 y - 52) ≤ y / 2 ^ (log2 y - 52) * 2 ^ (log2 y - 52) :=
      Nat.mul_le_mul_right _ hq
    have hpow : 2 ^ 70 ≤ 2 ^ log2 y := Nat.pow_le_pow_right (by norm_num) h70
    have h3 : (10 : Nat) ^ 21 ≤ 2 ^ 70 := by norm_num
    omega
  · have he : log2 y - 52 = 17 := by omega
    rw [he] at hfloor
    have hdiv : 7629394531250000 ≤ y / 2 ^ 17 := by
      rw [Nat.le_div_iff_mul_le (by positivity)]
      exact le_trans (by norm_num) h
    have hmul : 7629394531250000 * 2 ^ 17 ≤ y / 2 ^ 17 * 2 ^ 17 := Nat.mul_le_mul_right _ hdiv
    have h3 : (10 : Nat) ^ 21 ≤ 7629394531250000 * 2 ^ 17 := by norm_num
    exact le_trans h3 (le_trans hmul hfloor)

/-- A value that rounds to a double below `2 ^ 53` is that double. -/
theorem roundNearestEven_eq_small (y x : Nat) (hx : x < 2 ^ 53)
    (h : roundNearestEven y = x) : y = x := by
  by_cases hy : y < 2 ^ 53
  · rw [roundNearestEven_small y hy] at h; exact h
  · have := roundNearestEven_large y (by omega)
    omega

theorem shortestFrom_small (x : Nat) (hx : x < 2 ^ 53) : ∀ j : Nat, shortestFrom x j = x := by
  intro j
  induction j with
  | zero => rfl
  | succ j ih =>
    unfold shortestFrom
    simp only
    split
    · rename_i hboth
      simp only [Bool.and_eq_true, decide_eq_true_eq] at hboth
      obtain ⟨⟨_, hlo⟩, hhi⟩ := hboth
      have e1 := roundNearestEven_eq_small _ x hx hlo
      have e2 := roundNearestEven_eq_small _ x hx hhi
      split
      · exact e1
      · split
        · exact e2
        · split
          · exact e1
          · exact e2
    · split
      · rename_i _ hlo
        simp only [Bool.and_eq_true, decide_eq_true_eq] at hlo
        exact roundNearestEven_eq_small _ x hx hlo.2
      · split
        · rename_i _ _ hhi
          simp only [decide_eq_true_eq] at hhi
          exact roundNearestEven_eq_small _ x hx hhi
        · exact ih

/-- The shortest decimal of a positive double below `10 ^ 21` is positive and below
`10 ^ 21`. -/
theorem shortestFrom_bounds (x : Nat) (hpos : 0 < x) (hx : x < 10 ^ 21) :
    ∀ j : Nat, 0 < shortestFrom x j ∧ shortestFrom x j < 10 ^ 21 := by
  have hiOk : ∀ y : Nat, roundNearestEven y = x → y < 10 ^ 21 := by
    intro y hy
    by_contra hc
    have := roundNearestEven_ge_1e21 y (by omega)
    omega
  intro j
  induction j with
  | zero => exact ⟨hpos, hx⟩
  | succ j ih =>
    have hp : 0 < 10 ^ (j + 1) := by positivity
    have hle : x / 10 ^ (j + 1) * 10 ^ (j + 1) ≤ x := Nat.div_mul_le_self x _
    unfold shortestFrom
    simp only
    split
    · rename_i hboth
      simp only [Bool.and_eq_true, decide_eq_true_eq] at hboth
      obtain ⟨⟨hne, _⟩, hhi⟩ := hboth
      have b2 := hiOk _ hhi
      split
      · constructor <;> omega
      · split
        · constructor <;> omega
        · split
          · constructor <;> omega
          · constructor <;> omega
    · split
      · rename_i _ hlo
        simp only [Bool.and_eq_true, decide_eq_true_eq] at hlo
        obtain ⟨hne, _⟩ := hlo
        constructor <;> omega
      · split
        · rename_i _ _ hhi
          simp only [decide_eq_true_eq] at hhi
          have b2 := hiOk _ hhi
          constructor <;> omega
        · exact ih

/-- A positive double below `10 ^ 21` prints as the decimal numeral of a positive
integer. -/
theorem numberToString_below_1e21 (m : Nat) (hpos : 0 < m) (hm : m < 10 ^ 21) :
    ∃ n : Nat, 0 < n ∧ numberToString (.int false m) = toString n := by
  have hb : 0 < shortestDecimal m ∧ shortestDecimal m < 10 ^ 21 :=
    shortestFrom_bounds m hpos hm (Nat.repr m).length
  obtain ⟨hv0, hv1⟩ := hb
  refine ⟨shortestDecimal m, hv0, ?_⟩
  cases m with
  | zero => omega
  | succ k =>
    show positiveToString (k + 1) = _
    unfold positiveToString
    simp only
    rw [if_pos hv1]
    rfl

theorem positiveToString_small (x : Nat) (hx : x < 2 ^ 53) :
    positiveToString x = Nat.repr x := by
  unfold positiveToString shortestDecimal
  rw [shortestFrom_small x hx]
  simp only
  rw [if_pos (by omega)]

theorem numberToString_small (n : Nat) (hn : n < 2 ^ 53) :
    numberToString (.int false n) = Nat.repr n := by
  cases n with
  | zero => rfl
  | succ m => exact positiveToString_small (m + 1) hn

/-! ## Decimal text and `parseInt` -/

theorem digitChar_isDecimalDigit (k : Nat) (h : k < 10) :
    isDecimalDigit (Nat.digitChar k) = true ∧ (Nat.digitChar k).toNat - 48 = k := by
  interval_cases k <;> decide

theorem digitsValue_snoc (ds : List Char) (d : Char) :
    digitsValue (ds ++ [d]) = 10 * digitsValue ds + (d.toNat - 48) := by
  simp [digitsValue, List.foldl_append]

/-- With enough fuel the digit printer puts, in front of its accumulator, a run of
decimal digits that denotes the number printed. -/
theorem toDigitsCore_run (fuel n : Nat) (acc : List Char) (hfuel : n < fuel) :
    ∃ run : List Char, (∀ c ∈ run, isDecimalDigit c = true) ∧ digitsValue run = n ∧ run ≠ [] ∧
      Nat.toDigitsCore 10 fuel n acc = run ++ acc := by
  induction fuel generalizing n acc with
  | zero => omega
  | succ fuel ih =>
    obtain ⟨hdig, hval⟩ := digitChar_isDecimalDigit (n % 10) (Nat.mod_lt n (by norm_num))
    unfold Nat.toDigitsCore
    simp only
    by_cases hlast : n / 10 = 0
    · rw [if_pos hlast]
      refine ⟨[Nat.digitChar (n % 10)], ?_, ?_, by simp, rfl⟩
      · intro c hc
        rw [List.mem_singleton] at hc
        rw [hc]; exact hdig
      · have hone := digitsValue_snoc [] (Nat.digitChar (n % 10))
        simp only [List.nil_append] at hone
        rw [hone, hval]
        simp [digitsValue]
        omega
    · rw [if_neg hlast]
      obtain ⟨run, hall, hv, _, heq⟩ :=
        ih (n / 10) (Nat.digitChar (n % 10) :: acc) (by omega)
      refine ⟨run ++ [Nat.digitChar (n % 10)], ?_, ?_, by simp, ?_⟩
      · intro c hc
        rw [List.mem_append, List.mem_singleton] at hc
        rcases hc with hc | hc
        · exact hall c hc
        · rw [hc]; exact hdig
      · rw [digitsValue_snoc, hv, hval]
        omega
      · rw [heq]; simp

/-- The decimal text of `n` is a non-empty run of digits denoting `n`. -/
theorem repr_spec (n : Nat) : (Nat.repr n).data ≠ [] ∧
    (∀ c ∈ (Nat.repr n).data, isDecimalDigit c = true) ∧ digitsValue (Nat.repr n).data = n := by
  obtain ⟨ds, hall, hv, hne, heq⟩ := toDigitsCore_run (n + 1) n [] (by omega)
  have hdata : (Nat.repr n).data = ds := by
    simp [Nat.repr, Nat.toDigits, List.asString, heq]
  rw [hdata]
  exact ⟨hne, hall, hv⟩

theorem takeWhile_digits (ds rest : List Char) (hall : ∀ c ∈ ds, isDecimalDigit c = true)
    (hrest : ∀ c ∈ rest.head?, isDecimalDigit c = false) :
    (ds ++ rest).takeWhile isDecimalDigit = ds := by
  induction ds with
  | nil =>
    cases rest with
    | nil => rfl
    | cons c rest =>
      have hc := hrest c (by simp)
      simp [List.takeWhile, hc]
  | cons d ds ih =>
    have hd := hall d (by simp)
    have hrec := ih (fun c hc => hall c (by simp [hc]))
    rw [List.cons_append, List.takeWhile_cons, hd, if_pos rfl, hrec]

theorem digit_not_whiteSpace (c : Char) (h : isDecimalDigit c = true) :
    isStrWhiteSpaceChar c = false ∧ c ≠ '+' ∧ c ≠ '-' := by
  simp only [isDecimalDigit, Bool.and_eq_true, decide_eq_true_eq] at h
  refine ⟨?_, ?_, ?_⟩
  · simp only [isStrWhiteSpaceChar, Bool.or_eq_false_iff, Bool.and_eq_false_iff, beq_eq_false_iff_ne,
      decide_eq_false_iff_not, ne_eq]
    omega
  · intro hc; rw [hc] at h; revert h; decide
  · intro hc; rw [hc] at h; revert h; decide

/-- `parseInt` on a text that starts with a run of digits: the value of the run. -/
theorem parseIntChars_digits (ds rest : List Char) (hne : ds ≠ [])
    (hall : ∀ c ∈ ds, isDecimalDigit c = true)
    (hrest : ∀ c ∈ rest.head?, isDecimalDigit c = false) :
    parseIntChars (ds ++ rest) =
      if digitsValue ds = 0 then .int false 0 else toNumber false (digitsValue ds) := by
  cases ds with
  | nil => exact absurd rfl hne
  | cons d ds =>
    obtain ⟨hw, hplus, hminus⟩ := digit_not_whiteSpace d (hall d (by simp))
    have htake := takeWhile_digits (d :: ds) rest hall hrest
    unfold parseIntChars
    have hdrop : List.dropWhile isStrWhiteSpaceChar (d :: ds ++ rest) = d :: (ds ++ rest) := by
      simp [List.dropWhile, hw]
    rw [hdrop]
    have hneg : (match d :: (ds ++ rest) with
        | '-' :: _ => true
        | _ => false) = false := by
      split
      · rename_i heq; exact absurd (List.cons.inj heq).1 hminus
      · rfl
    have hsign : (match d :: (ds ++ rest) with
        | '+' :: t => t
        | '-' :: t => t
        | _ => d :: (ds ++ rest)) = d :: (ds ++ rest) := by
      split
      · rename_i heq; exact absurd (List.cons.inj heq).1 hplus
      · rename_i heq; exact absurd (List.cons.inj heq).1 hminus
      · rfl
    simp only [hneg, hsign]
    rw [← List.cons_append, htake]
    simp

theorem takeWhile_head_no_digit (l : List Char)
    (h : ∀ c ∈ l.head?, isDecimalDigit c = false) : l.takeWhile isDecimalDigit = [] := by
  cases l with
  | nil => rfl
  | cons c l =>
    have hc := h c (by simp)
    simp [List.takeWhile, hc]

theorem dropWhile_whiteSpace_append (ws l : List Char)
    (hws : ∀ c ∈ ws, isStrWhiteSpaceChar c = true) :
    (ws ++ l).dropWhile isStrWhiteSpaceChar = l.dropWhile isStrWhiteSpaceChar := by
  induction ws with
  | nil => rfl
  | cons a ws ih =>
    have ha := hws a (by simp)
    rw [List.cons_append, List.dropWhile_cons, ha, if_pos rfl]
    exact ih (fun c hc => hws c (by simp [hc]))

/-- Leading white space does not change what `parseInt` returns. -/
theorem parseIntChars_whiteSpace (ws l : List Char)
    (hws : ∀ c ∈ ws, isStrWhiteSpaceChar c = true) :
    parseIntChars (ws ++ l) = parseIntChars l := by
  unfold parseIntChars
  rw [dropWhile_whiteSpace_append ws l hws]

/-- After a sign, a text that does not continue with a digit parses to `NaN`. -/
theorem parseIntChars_sign_no_digit (sg : Char) (rest : List Char)
    (hsg : sg = '+' ∨ sg = '-') (hrest : ∀ c ∈ rest.head?, isDecimalDigit c = false) :
    parseIntChars (sg :: rest) = .nan := by
  have htake := takeWhile_head_no_digit rest hrest
  rcases hsg with h | h <;> subst h
  · have hdrop : List.dropWhile isStrWhiteSpaceChar ('+' :: rest) = '+' :: rest := by
      rw [List.dropWhile_cons, if_neg (by decide)]
    unfold parseIntChars
    rw [hdrop]
    simp only [htake]
    rfl
  · have hdrop : List.dropWhile isStrWhiteSpaceChar ('-' :: rest) = '-' :: rest := by
      rw [List.dropWhile_cons, if_neg (by decide)]
    unfold parseIntChars
    rw [hdrop]
    simp only [htake]
    rfl

/-- Without a sign, a text whose first character is neither white space, nor a sign,
nor a digit parses to `NaN`; so does the empty text. -/
theorem parseIntChars_bare_no_digit (rest : List Char)
    (hrest : ∀ c ∈ rest.head?, isDecimalDigit c = false ∧
      isStrWhiteSpaceChar c = false ∧ c ≠ '+' ∧ c ≠ '-') :
    parseIntChars rest = .nan := by
  cases rest with
  | nil => rfl
  | cons c t =>
    obtain ⟨hd, hw, hplus, hminus⟩ := hrest c (by simp)
    have hdrop : List.dropWhile isStrWhiteSpaceChar (c :: t) = c :: t := by
      rw [List.dropWhile_cons, hw]; rfl
    have hstrip : (match c :: t with
        | '+' :: u => u
        | '-' :: u => u
        | _ => c :: t) = c :: t := by
      split
      · rename_i heq; exact absurd (List.cons.inj heq).1 hplus
      · rename_i heq; exact absurd (List.cons.inj heq).1 hminus
      · rfl
    have htake : (c :: t).takeWhile isDecimalDigit = [] :=
      takeWhile_head_no_digit (c :: t) (by intro a ha; simp at ha; subst ha; exact hd)
    unfold parseIntChars
    rw [hdrop]
    simp only [hstrip, htake]
    rfl

/-- A text in which the leading white space and the optional sign are not followed by
a decimal digit parses to `NaN`. -/
theorem parseIntChars_no_digit (ws sign rest : List Char)
    (hws : ∀ c ∈ ws, isStrWhiteSpaceChar c = true)
    (hsign : sign = [] ∨ sign = ['+'] ∨ sign = ['-'])
    (hrest : ∀ c ∈ rest.head?, isDecimalDigit c = false)
    (hbare : sign = [] → ∀ c ∈ rest.head?, isStrWhiteSpaceChar c = false ∧ c ≠ '+' ∧ c ≠ '-') :
    parseIntChars (ws ++ sign ++ rest) = .nan := by
  rw [List.append_assoc, parseIntChars_whiteSpace ws _ hws]
  rcases hsign with h | h | h
  · subst h
    exact parseIntChars_bare_no_digit rest (fun c hc => ⟨hrest c hc, hbare rfl c hc⟩)
  · subst h
    exact parseIntChars_sign_no_digit '+' rest (Or.inl rfl) hrest
  · subst h
    exact parseIntChars_sign_no_digit '-' rest (Or.inr rfl) hrest

/-! ## Effects of `exec` and of the command -/

theorem exec_execCalls (name : String) (arg : JSNumber) (w : World) :
    (exec name arg w).execCalls = w.execCalls ++ [(name, arg)] := by
  unfold exec
  simp only
  split <;> rfl

theorem exec_inputValue (name : String) (arg : JSNumber) (w : World) :
    (exec name arg w).inputValue = w.inputValue := by
  unfold exec
  simp only
  split <;> rfl

theorem exec_popupVisible (name : String) (arg : JSNumber) (w : World) :
    (exec name arg w).popupVisible = w.popupVisible := by
  unfold exec
  simp only
  split <;> rfl

/-- The `change` listener on a text that starts with a run of digits denoting an
integer in `1 .. 2 ^ 53 - 1`: one `exec` with that integer, field untouched. -/
theorem fontSizeInputChange_digits (ds rest : List Char) (w : World) (hne : ds ≠ [])
    (hall : ∀ c ∈ ds, isDecimalDigit c = true)
    (hrest : ∀ c ∈ rest.head?, isDecimalDigit c = false)
    (hpos : 0 < digitsValue ds) (hsafe : digitsValue ds < 2 ^ 53)
    (hw : w.inputValue = String.mk (ds ++ rest)) :
    fontSizeInputChange w = exec "changeFontSize" (.int false (digitsValue ds)) w := by
  unfold fontSizeInputChange
  have hparse : parseInt w.inputValue = .int false (digitsValue ds) := by
    unfold parseInt
    rw [hw]
    simp only
    rw [parseIntChars_digits ds rest hne hall hrest, if_neg (by omega)]
    unfold toNumber
    simp only
    rw [roundNearestEven_small _ hsafe, if_pos]
    exact Nat.lt_of_lt_of_le hsafe (Nat.pow_le_pow_right (by norm_num) (by norm_num))
  simp only [hparse]
  have hguard : (isNaN (.int false (digitsValue ds)) || leZero (.int false (digitsValue ds))) = false := by
    simp [isNaN, leZero]
    omega
  rw [hguard]
  rfl

/-- When the guard of the `change` listener holds, the edit only leaves its text in
the field. -/
theorem onUserEdit_of_guard (s : String) (w : World)
    (h : (isNaN (parseInt s) || leZero (parseInt s)) = true) :
    onUserEdit s w = { w with inputValue := s } := by
  show (if (isNaN (parseInt s) || leZero (parseInt s)) = true then _ else _) = _
  rw [if_pos h]

/-- When the guard of the `change` listener fails, the edit executes the command with
the parsed number. -/
theorem onUserEdit_of_not_guard (s : String) (w : World)
    (h : (isNaN (parseInt s) || leZero (parseInt s)) = false) :
    onUserEdit s w = exec "changeFontSize" (parseInt s) { w with inputValue := s } := by
  show (if (isNaN (parseInt s) || leZero (parseInt s)) = true then _ else _) = _
  rw [h]
  rfl

/-- Every argument recorded after an `exec` was recorded before or is the text of the
number executed, followed by "px". -/
theorem exec_setFontSizeCalls (name : String) (x : JSNumber) (w : World)
    (P : String → Prop) (hw : ∀ a ∈ w.setFontSizeCalls, P a)
    (hx : P (numberToString x ++ "px")) :
    ∀ a ∈ (exec name x w).setFontSizeCalls, P a := by
  unfold exec
  simp only
  split
  · intro a ha
    have hmem : a ∈ w.setFontSizeCalls ++ [numberToString x ++ "px"] := ha
    rw [List.mem_append, List.mem_singleton] at hmem
    rcases hmem with hmem | hmem
    · exact hw a hmem
    · rw [hmem]; exact hx
  · exact hw

theorem fontSizeValues_bounds (i : Fin 6) :
    0 < fontSizeValues.getD i.val 0 ∧ fontSizeValues.getD i.val 0 < 2 ^ 53 := by
  revert i
  decide

/-- One event keeps every recorded argument of `setFontSize` of the form digits then
"px", when the event is not a field change that parses to `10 ^ 21` or more. -/
theorem step_pixelSizes (w : World) (e : Event)
    (hw : ∀ a ∈ w.setFontSizeCalls, IsPixelSize a)
    (he : ∀ s, e = .change s →
      isNaN (parseInt s) = true ∨ ltBound (parseInt s) (10 ^ 21) = true) :
    ∀ a ∈ (step w e).setFontSizeCalls, IsPixelSize a := by
  cases e with
  | change s =>
    have hs := he s rfl
    show ∀ a ∈ (onUserEdit s w).setFontSizeCalls, IsPixelSize a
    by_cases hguard : (isNaN (parseInt s) || leZero (parseInt s)) = true
    · rw [onUserEdit_of_guard s w hguard]
      exact hw
    · have hguard' : (isNaN (parseInt s) || leZero (parseInt s)) = false := by
        simpa using hguard
      rw [onUserEdit_of_not_guard s w hguard']
      refine exec_setFontSizeCalls _ _ _ IsPixelSize (fun a ha => hw a ha) ?_
      generalize parseInt s = x at hs hguard'
      cases x with
      | nan => simp [isNaN] at hguard'
      | inf neg =>
        cases neg
        · simp [isNaN, ltBound] at hs
        · simp [isNaN, leZero] at hguard'
      | int neg m =>
        cases neg
        · simp only [isNaN, leZero, ltBound, Bool.false_or, beq_eq_false_iff_ne, ne_eq,
            false_or, decide_eq_true_eq, Bool.false_eq_true] at hs hguard'
          obtain ⟨n, hn, heq⟩ := numberToString_below_1e21 m (by omega) hs
          exact ⟨n, hn, by rw [heq]⟩
        · simp [isNaN, leZero] at hguard'
  | presetClick i =>
    obtain ⟨hpos, hsafe⟩ := fontSizeValues_bounds i
    show ∀ a ∈ (exec "changeFontSize" (.int false (fontSizeValues.getD i.val 0)) w).setFontSizeCalls,
      IsPixelSize a
    apply exec_setFontSizeCalls _ _ _ IsPixelSize hw
    exact ⟨fontSizeValues.getD i.val 0, hpos, by rw [numberToString_small _ hsafe]; rfl⟩
  | showDropdown => exact hw

/-- A sequence of events keeps every recorded argument of `setFontSize` of the form
digits then "px", when no field change in it parses to `10 ^ 21` or more. -/
theorem run_keeps_pixelSizes (events : List Event) : ∀ w : World,
    (∀ a ∈ w.setFontSizeCalls, IsPixelSize a) →
    (∀ s, Event.change s ∈ events →
      isNaN (parseInt s) = true ∨ ltBound (parseInt s) (10 ^ 21) = true) →
    ∀ a ∈ (run w events).setFontSizeCalls, IsPixelSize a := by
  induction events with
  | nil => intro w hw _; exact hw
  | cons e es ih =>
    intro w hw hev
    show ∀ a ∈ (run (step w e) es).setFontSizeCalls, IsPixelSize a
    apply ih
    · exact step_pixelSizes w e hw (fun s hs => hev s (by rw [hs]; simp))
    · intro s hs
      exact hev s (List.mem_cons_of_mem _ hs)

theorem not_isPixelSize_exponent : ¬ IsPixelSize "1e+21px" := by
  rintro ⟨n, _, hn⟩
  have hdata : ['1', 'e', '+', '2', '1'] ++ ['p', 'x'] = (Nat.repr n).data ++ ['p', 'x'] :=
    congrArg String.data hn
  have hrepr := List.append_cancel_right hdata
  obtain ⟨_, hall, _⟩ := repr_spec n
  have he := hall 'e' (by rw [← hrepr]; simp)
  revert he
  decide

/-! ## The size field -/

/-- C1: when `parseInt` of the typed text is `NaN` or is `<= 0`, the change handler
makes no `exec` call (hence no `setFontSize` call either) and the field keeps showing
exactly the typed text. -/
theorem onUserEdit_invalid (s : String) (w : World)
    (h : isNaN (parseInt s) = true ∨ leZero (parseInt s) = true) :
    (onUserEdit s w).execCalls = w.execCalls ∧
      (onUserEdit s w).setFontSizeCalls = w.setFontSizeCalls ∧
      (onUserEdit s w).inputValue = s := by
  have hguard : (isNaN (parseInt s) || leZero (parseInt s)) = true := by
    rcases h with h | h <;> simp [h]
  rw [onUserEdit_of_guard s w hguard]
  exact ⟨rfl, rfl, rfl⟩

theorem onUserEdit_invalid_witness :
    (isNaN (parseInt "0") = true ∨ leZero (parseInt "0") = true) ∧
      ((onUserEdit "0" (fontSizePlugin true)).execCalls = (fontSizePlugin true).execCalls ∧
        (onUserEdit "0" (fontSizePlugin true)).setFontSizeCalls =
          (fontSizePlugin true).setFontSizeCalls ∧
        (onUserEdit "0" (fontSizePlugin true)).inputValue = "0") :=
  ⟨by decide, onUserEdit_invalid "0" (fontSizePlugin true) (by decide)⟩

/-- C2, as stated, fails at `n = 2 ^ 53 + 1`: the typed text "9007199254740993" makes
one `exec` call, with the double `9007199254740992` and not with `n`. -/
theorem onUserEdit_decimal_counterexample :
    (onUserEdit (toString 9007199254740993) (fontSizePlugin true)).execCalls =
        [("changeFontSize", .int false 9007199254740992)] ∧
      (onUserEdit (toString 9007199254740993) (fontSizePlugin true)).execCalls ≠
        (fontSizePlugin true).execCalls ++ [("changeFontSize", .int false 9007199254740993)] := by
  decide

/-- C2 (amended): for every positive integer `n` below `2 ^ 53`, the change handler on
the decimal text of `n` makes exactly one `exec` call, `changeFontSize` with the value
`n`, and afterwards the field shows the decimal text of `n`. -/
theorem onUserEdit_decimal (n : Nat) (w : World) (hpos : 0 < n) (hsafe : n < 2 ^ 53) :
    (onUserEdit (toString n) w).execCalls = w.execCalls ++ [("changeFontSize", .int false n)] ∧
      (onUserEdit (toString n) w).inputValue = toString n := by
  obtain ⟨hne, hall, hv⟩ := repr_spec n
  have hstep := fontSizeInputChange_digits (Nat.repr n).data [] { w with inputValue := toString n }
    hne hall (by simp) (by omega) (by omega) (by simp; rfl)
  rw [hv] at hstep
  unfold onUserEdit
  rw [hstep, exec_execCalls, exec_inputValue]
  exact ⟨rfl, rfl⟩

theorem onUserEdit_decimal_witness :
    0 < 24 ∧ 24 < 2 ^ 53 ∧
      ((onUserEdit (toString 24) (fontSizePlugin true)).execCalls =
          (fontSizePlugin true).execCalls ++ [("changeFontSize", .int false 24)] ∧
        (onUserEdit (toString 24) (fontSizePlugin true)).inputValue = toString 24) :=
  ⟨by decide, by decide, onUserEdit_decimal 24 (fontSizePlugin true) (by decide) (by decide)⟩

/-- C7, as stated, fails at "9007199254740993.5": the integer part is
`9007199254740993`, and the single `exec` call carries `9007199254740992`. -/
theorem onUserEdit_fraction_counterexample :
    (onUserEdit "9007199254740993.5" (fontSizePlugin true)).execCalls =
        [("changeFontSize", .int false 9007199254740992)] ∧
      digitsValue "9007199254740993".data = 9007199254740993 ∧
      (onUserEdit "9007199254740993.5" (fontSizePlugin true)).execCalls ≠
        (fontSizePlugin true).execCalls ++
          [("changeFontSize", .int false (digitsValue "9007199254740993".data))] := by
  decide

/-- C7 (amended): for every typed text made of a run of digits denoting an integer
from `1` to `2 ^ 53 - 1`, then a point, then anything, the change handler makes exactly
one `exec` call, `changeFontSize` with the integer part. -/
theorem onUserEdit_fraction (ds rest : List Char) (w : World) (hne : ds ≠ [])
    (hall : ∀ c ∈ ds, isDecimalDigit c = true)
    (hpos : 0 < digitsValue ds) (hsafe : digitsValue ds < 2 ^ 53) :
    (onUserEdit (String.mk (ds ++ '.' :: rest)) w).execCalls =
      w.execCalls ++ [("changeFontSize", .int false (digitsValue ds))] := by
  have hstep := fontSizeInputChange_digits ds ('.' :: rest)
    { w with inputValue := String.mk (ds ++ '.' :: rest) } hne hall
    (by intro c hc; simp at hc; subst hc; decide) hpos hsafe rfl
  unfold onUserEdit
  rw [hstep, exec_execCalls]

theorem onUserEdit_fraction_witness :
    ['1', '4'] ≠ [] ∧ (∀ c ∈ ['1', '4'], isDecimalDigit c = true) ∧
      0 < digitsValue ['1', '4'] ∧ digitsValue ['1', '4'] < 2 ^ 53 ∧
      (onUserEdit (String.mk (['1', '4'] ++ '.' :: ['7'])) (fontSizePlugin true)).execCalls =
        (fontSizePlugin true).execCalls ++
          [("changeFontSize", .int false (digitsValue ['1', '4']))] :=
  ⟨by decide, by decide, by decide, by decide,
    onUserEdit_fraction ['1', '4'] ['7'] (fontSizePlugin true) (by decide) (by decide)
      (by decide) (by decide)⟩

/-- C8, as stated, fails at "14.7": the text is not the numeral of an integer, and the
change handler makes one `exec` call, with the truncated value `14`. -/
theorem onUserEdit_nonInteger_counterexample :
    (onUserEdit "14.7" (fontSizePlugin true)).execCalls =
        [("changeFontSize", .int false 14)] ∧
      (onUserEdit "14.7" (fontSizePlugin true)).execCalls ≠ (fontSizePlugin true).execCalls := by
  decide

/-- C8 (amended): for every typed text in which the leading white space and the
optional sign are not followed by a decimal digit (non-numeric input), the change
handler rejects the edit: no `exec` call and no `setFontSize` call. -/
theorem onUserEdit_nonNumeric (ws sign rest : List Char) (w : World)
    (hws : ∀ c ∈ ws, isStrWhiteSpaceChar c = true)
    (hsign : sign = [] ∨ sign = ['+'] ∨ sign = ['-'])
    (hrest : ∀ c ∈ rest.head?, isDecimalDigit c = false)
    (hbare : sign = [] → ∀ c ∈ rest.head?, isStrWhiteSpaceChar c = false ∧ c ≠ '+' ∧ c ≠ '-') :
    (onUserEdit (String.mk (ws ++ sign ++ rest)) w).execCalls = w.execCalls ∧
      (onUserEdit (String.mk (ws ++ sign ++ rest)) w).setFontSizeCalls = w.setFontSizeCalls := by
  have hnan : parseInt (String.mk (ws ++ sign ++ rest)) = .nan :=
    parseIntChars_no_digit ws sign rest hws hsign hrest hbare
  rw [onUserEdit_of_guard _ w (by rw [hnan]; rfl)]
  exact ⟨rfl, rfl⟩

theorem onUserEdit_nonNumeric_witness :
    (∀ c ∈ [' '], isStrWhiteSpaceChar c = true) ∧
      (∀ c ∈ ['a', 'b', 'c'].head?, isDecimalDigit c = false) ∧
      (∀ c ∈ ['a', 'b', 'c'].head?, isStrWhiteSpaceChar c = false ∧ c ≠ '+' ∧ c ≠ '-') ∧
      ((onUserEdit (String.mk ([' '] ++ [] ++ ['a', 'b', 'c'])) (fontSizePlugin true)).execCalls =
          (fontSizePlugin true).execCalls ∧
        (onUserEdit (String.mk ([' '] ++ [] ++ ['a', 'b', 'c']))
            (fontSizePlugin true)).setFontSizeCalls =
          (fontSizePlugin true).setFontSizeCalls) :=
  ⟨by decide, by decide, by decide,
    onUserEdit_nonNumeric [' '] [] ['a', 'b', 'c'] (fontSizePlugin true) (by decide)
      (Or.inl rfl) (by decide) (fun _ => by decide)⟩

/-! ## The preset list -/

/-- C3: clicking the preset entry for a value `v` of the list makes exactly one `exec`
call, `changeFontSize` with the value `v`. -/
theorem onPresetClicked_exec (v : Nat) (w : World) (_hv : v ∈ fontSizeValues) :
    (onPresetClicked v w).execCalls = w.execCalls ++ [("changeFontSize", .int false v)] := by
  unfold onPresetClicked
  rw [exec_execCalls]

theorem onPresetClicked_exec_witness :
    16 ∈ fontSizeValues ∧
      (onPresetClicked 16 (fontSizePlugin true)).execCalls =
        (fontSizePlugin true).execCalls ++ [("changeFontSize", .int false 16)] :=
  ⟨by decide, onPresetClicked_exec 16 (fontSizePlugin true) (by decide)⟩

/-- C4 on the code: with the popup shown, a click on the preset entry 16 leaves the
popup shown; the click listener only executes the command. -/
theorem onPresetClicked_popup_stays :
    (run (fontSizePlugin true) [.showDropdown]).popupVisible = true ∧
      (run (fontSizePlugin true) [.showDropdown, .presetClick 2]).execCalls =
        [("changeFontSize", .int false 16)] ∧
      (run (fontSizePlugin true) [.showDropdown, .presetClick 2]).popupVisible = true := by
  decide

/-- C5 on the code: with the field showing "12", a click on the preset entry 18 calls
`setFontSize("18px")` and the field still shows "12". -/
theorem onPresetClicked_field_stays :
    (run (fontSizePlugin true) [.presetClick 3]).setFontSizeCalls = ["18px"] ∧
      (run (fontSizePlugin true) [.presetClick 3]).inputValue = "12" := by
  decide

/-- C6: the show request makes the popup shown whatever it was before, a second show
request leaves it shown, and neither makes an `exec` call, a `setFontSize` call or a
change to the field. -/
theorem onShowRequested_spec (w : World) :
    (onShowRequested w).popupVisible = true ∧
      (onShowRequested (onShowRequested w)).popupVisible = true ∧
      (onShowRequested w).execCalls = w.execCalls ∧
      (onShowRequested w).setFontSizeCalls = w.setFontSizeCalls ∧
      (onShowRequested w).inputValue = w.inputValue ∧
      (onShowRequested (onShowRequested w)).execCalls = w.execCalls ∧
      (onShowRequested (onShowRequested w)).setFontSizeCalls = w.setFontSizeCalls ∧
      (onShowRequested (onShowRequested w)).inputValue = w.inputValue :=
  ⟨rfl, rfl, rfl, rfl, rfl, rfl, rfl, rfl⟩

/-! ## The command -/

/-- C9, as stated, fails at `fontSize = 2 ^ 60 = 1152921504606846976`: the argument of
`setFontSize` is "1152921504606847000px", the shortest decimal that reads back as the
same double. -/
theorem changeFontSize_counterexample :
    (changeFontSize (.int false 1152921504606846976) (fontSizePlugin true)).setFontSizeCalls =
        ["1152921504606847000px"] ∧
      (changeFontSize (.int false 1152921504606846976) (fontSizePlugin true)).setFontSizeCalls ≠
        (fontSizePlugin true).setFontSizeCalls ++ [toString 1152921504606846976 ++ "px"] := by
  decide

/-- C9 (amended): for every positive integer `fontSize` below `2 ^ 53`, the command
calls `setFontSize` exactly once, with the decimal text of `fontSize` followed by
"px", and changes nothing else. -/
theorem changeFontSize_spec (n : Nat) (w : World) (_hpos : 0 < n) (hsafe : n < 2 ^ 53) :
    changeFontSize (.int false n) w =
      { w with setFontSizeCalls := w.setFontSizeCalls ++ [toString n ++ "px"] } := by
  unfold changeFontSize
  rw [numberToString_small n hsafe]
  rfl

theorem changeFontSize_spec_witness :
    0 < 16 ∧ 16 < 2 ^ 53 ∧
      changeFontSize (.int false 16) (fontSizePlugin true) =
        { fontSizePlugin true with
          setFontSizeCalls := (fontSizePlugin true).setFontSizeCalls ++ [toString 16 ++ "px"] } :=
  ⟨by decide, by decide, changeFontSize_spec 16 (fontSizePlugin true) (by decide) (by decide)⟩

/-! ## Event sequences -/

/-- C10, as stated, fails on the single field change with the text
"1000000000000000000000" (22 digits): the text passes the guard and `setFontSize` is
called with "1e+21px", which is not the numeral of an integer followed by "px". -/
theorem run_pixelSizes_counterexample :
    (run (fontSizePlugin true) [.change "1000000000000000000000"]).setFontSizeCalls =
        ["1e+21px"] ∧
      ¬ IsPixelSize "1e+21px" :=
  ⟨by decide, not_isPixelSize_exponent⟩

/-- C10 (amended): for every finite sequence of field changes, preset clicks and show
requests in which no field-change text parses to a number of `10 ^ 21` or more, every
argument passed to `setFontSize` since the plugin was set up is the decimal numeral of
a positive integer followed by "px". -/
theorem run_pixelSizes (mode : Bool) (events : List Event)
    (h : ∀ s, Event.change s ∈ events →
      isNaN (parseInt s) = true ∨ ltBound (parseInt s) (10 ^ 21) = true) :
    ∀ a ∈ (run (fontSizePlugin mode) events).setFontSizeCalls, IsPixelSize a :=
  run_keeps_pixelSizes events (fontSizePlugin mode) (by intro a ha; cases ha) h

theorem run_pixelSizes_witness :
    (∀ s, Event.change s ∈
        [Event.change "0", Event.change "24", Event.showDropdown, Event.presetClick 2] →
      isNaN (parseInt s) = true ∨ ltBound (parseInt s) (10 ^ 21) = true) ∧
      ∀ a ∈ (run (fontSizePlugin true)
        [Event.change "0", Event.change "24", Event.showDropdown,
          Event.presetClick 2]).setFontSizeCalls, IsPixelSize a :=
  have h : ∀ s, Event.change s ∈
        [Event.change "0", Event.change "24", Event.showDropdown, Event.presetClick 2] →
      isNaN (parseInt s) = true ∨ ltBound (parseInt s) (10 ^ 21) = true := by
    intro s hs
    simp at hs
    rcases hs with rfl | rfl <;> decide
  ⟨h, run_pixelSizes true _ h⟩

end FontSizePlugin
